import Mathlib

/-!
Verification of the autokey trigger-matching core.

Shallow embedding of the Python sources:
  src/trunk/src/lib/model.py      (abbreviation/hotkey matching, tree accounting,
                                   expansion building, serialization)
  src/src/lib/iomediator.py       (key constants, string tokenization, send_string)

Python strings are modelled as lists of characters (`Str`).  A compiled
single-character-class regex (the `wordChars` matcher, whose pattern the spec
guarantees to be a single character class) is modelled as a `Char → Bool`
predicate; a compiled window-title regex is modelled as an opaque
`Str → Bool` matcher, since the regex engine is external to this code.
-/

/-- Python strings, modelled as lists of characters. -/
abbrev Str : Type := List Char

/-- Python str.lower(), per character (ASCII case folding). -/
def lowerStr (s : Str) : Str := List.map Char.toLower s

/-- Helper for the last occurrence search of str.rpartition: scan indices
i, i-1, ..., 0 and return the first index (hence the largest) at which
sep is a prefix of the corresponding suffix of s. -/
def lastOccAux (s sep : List Char) : Nat → Option Nat
  | 0 => if sep.isPrefixOf s then some 0 else none
  | i + 1 => if sep.isPrefixOf (s.drop (i + 1)) then some (i + 1) else lastOccAux s sep i

/-- Index of the last occurrence of sep in s, if any. -/
def lastOcc (s sep : List Char) : Option Nat := lastOccAux s sep s.length

/-- Python str.rpartition: split at the last occurrence of the separator;
if the separator is not found, return two empty parts and the whole string
as the third part. -/
def rpartition (s sep : List Char) : Str × Str × Str :=
  match lastOcc s sep with
  | some i => (s.take i, (s.drop i).take sep.length, s.drop (i + sep.length))
  | none => ([], [], s)

/-- An abbreviation configuration (fields of AbstractAbbreviation).
The compiled wordChars regex is modelled as a per-character predicate. -/
structure AbbrConfig where
  abbreviation : Str
  backspace : Bool
  ignoreCase : Bool
  immediate : Bool
  triggerInside : Bool
  wordChars : Char → Bool

/-- re.match of a single-character-class pattern against a string: succeeds
iff the string is non-empty and its first character is in the class. -/
def reMatch (p : Char → Bool) (s : Str) : Bool :=
  match s with
  | [] => false
  | c :: _ => p c

/-- AbstractAbbreviation._partition_input: partition the input into text
before, the typed abbreviation, and text after.  With ignoreCase, the
buffer is lower-cased, searched with the configured abbreviation as-is,
and the matched component is re-extracted from the original buffer. -/
def partitionInput (cfg : AbbrConfig) (currentString : Str) : Str × Str × Str :=
  if cfg.ignoreCase then
    let matchString := lowerStr currentString
    let p := rpartition matchString cfg.abbreviation
    let abbrStart := p.1.length
    let abbrEnd := abbrStart + p.2.1.length
    (p.1, (currentString.drop abbrStart).take (abbrEnd - abbrStart), p.2.2)
  else
    rpartition currentString cfg.abbreviation

/-- The stringBefore check of _should_trigger_abbreviation: fail when the
character just before the abbreviation is a word character, unless
triggerInside is set. -/
def beforeCheck (cfg : AbbrConfig) (stringBefore : Str) : Bool :=
  match stringBefore.getLast? with
  | some c => if cfg.wordChars c then (if ¬cfg.triggerInside then false else true) else true
  | none => true

/-- AbstractAbbreviation._should_trigger_abbreviation. -/
def shouldTrigger (cfg : AbbrConfig) (buffer : Str) : Bool :=
  let p := partitionInput cfg buffer
  let stringBefore := p.1
  let typedAbbr := p.2.1
  let stringAfter := p.2.2
  if typedAbbr.length > 0 then
    if ¬cfg.immediate then
      if stringAfter.length == 1 then
        if reMatch cfg.wordChars stringAfter then false
        else if stringAfter.length > 1 then false
        else beforeCheck cfg stringBefore
      else false
    else
      if stringAfter.length > 0 then false
      else beforeCheck cfg stringBefore
  else false

theorem lastOccAux_some (s sep : List Char) (i j : Nat)
    (h : lastOccAux s sep i = some j) :
    sep.isPrefixOf (s.drop j) = true ∧ j ≤ i ∧
      ∀ k, j < k → k ≤ i → sep.isPrefixOf (s.drop k) = false := by
  induction i with
  | zero =>
    simp only [lastOccAux] at h
    by_cases hp : sep.isPrefixOf s
    · simp [hp] at h
      subst h
      exact ⟨by simpa using hp, le_refl _, fun k hk1 hk2 => absurd (lt_of_lt_of_le hk1 hk2) (lt_irrefl 0)⟩
    · simp [hp] at h
  | succ i ih =>
    simp only [lastOccAux] at h
    by_cases hp : sep.isPrefixOf (s.drop (i + 1))
    · simp [hp] at h
      subst h
      refine ⟨hp, le_refl _, fun k hk1 hk2 => absurd (lt_of_lt_of_le hk1 hk2) (lt_irrefl _)⟩
    · simp [hp] at h
      obtain ⟨h1, h2, h3⟩ := ih h
      refine ⟨h1, le_trans h2 (Nat.le_succ i), fun k hk1 hk2 => ?_⟩
      rcases Nat.lt_or_ge k (i + 1) with hk | hk
      · exact h3 k hk1 (Nat.lt_succ_iff.mp hk)
      · have : k = i + 1 := le_antisymm hk2 hk
        subst this
        exact Bool.eq_false_iff.mpr (by simpa using hp)

theorem lastOccAux_none (s sep : List Char) (i : Nat)
    (h : lastOccAux s sep i = none) :
    ∀ k, k ≤ i → sep.isPrefixOf (s.drop k) = false := by
  induction i with
  | zero =>
    intro k hk
    interval_cases k
    simp only [lastOccAux] at h
    by_cases hp : sep.isPrefixOf s
    · simp [hp] at h
    · exact Bool.eq_false_iff.mpr (by simpa using hp)
  | succ i ih =>
    intro k hk
    simp only [lastOccAux] at h
    by_cases hp : sep.isPrefixOf (s.drop (i + 1))
    · simp [hp] at h
    · simp [hp] at h
      rcases Nat.lt_or_ge k (i + 1) with hk' | hk'
      · exact ih h k (Nat.lt_succ_iff.mp hk')
      · have : k = i + 1 := le_antisymm hk hk'
        subst this
        exact Bool.eq_false_iff.mpr (by simpa using hp)

theorem beforeCheck_iff (cfg : AbbrConfig) (before : Str) :
    beforeCheck cfg before = true ↔
      ∀ d, before.getLast? = some d → cfg.wordChars d = true → cfg.triggerInside = true := by
  unfold beforeCheck
  cases hg : before.getLast? with
  | none =>
    simp [hg]
  | some c =>
    by_cases hw : cfg.wordChars c
    · by_cases ht : cfg.triggerInside
      · simp [hw, ht]
      · constructor
        · intro h
          dsimp only at h
          rw [if_pos hw, if_pos ht] at h
          exact absurd h (by simp)
        · intro h
          exact absurd (h c rfl hw) ht
    · constructor
      · intro _ d hd hwd
        injection hd with hd
        rw [← hd] at hwd
        exact absurd hwd hw
      · intro _
        dsimp only
        rw [if_neg hw]

/-- C1: for an abbreviation found in the buffer (partition yields a non-empty
matched component), _should_trigger_abbreviation succeeds iff: when not
immediate, the text after the occurrence is exactly one character that does
not match wordChars; when immediate, the text after is empty; and when the
text before ends in a word character, triggerInside is set.  When the
abbreviation is not found (matched component empty), the check fails. -/
theorem abbreviation_trigger_check (cfg : AbbrConfig) (buffer before typed after : Str)
    (hpart : partitionInput cfg buffer = (before, typed, after)) :
    (typed ≠ [] →
      (shouldTrigger cfg buffer = true ↔
        ((if cfg.immediate = true then after = []
          else ∃ c, after = [c] ∧ cfg.wordChars c = false) ∧
         (∀ d, before.getLast? = some d → cfg.wordChars d = true → cfg.triggerInside = true)))) ∧
    (typed = [] → shouldTrigger cfg buffer = false) := by
  unfold shouldTrigger
  rw [hpart]
  dsimp only
  constructor
  · intro htyped
    rw [if_pos (List.length_pos.mpr htyped)]
    cases himm : cfg.immediate
    · -- not immediate
      rw [if_pos (show ¬false = true by decide), if_neg (show ¬false = true by decide)]
      cases after with
      | nil => simp [beforeCheck_iff]
      | cons c rest =>
        cases rest with
        | nil =>
          rw [if_pos (show (List.length [c] == 1) = true by simp)]
          by_cases hw : cfg.wordChars c
          · rw [if_pos (show reMatch cfg.wordChars [c] = true by simp [reMatch, hw])]
            simp [hw]
          · rw [if_neg (show ¬reMatch cfg.wordChars [c] = true by simp [reMatch, hw]),
              if_neg (show ¬List.length [c] > 1 by simp)]
            rw [beforeCheck_iff]
            exact ⟨fun hb => ⟨⟨c, rfl, by simpa using hw⟩, hb⟩, fun h => h.2⟩
        | cons c2 rest2 =>
          rw [if_neg (show ¬(List.length (c :: c2 :: rest2) == 1) = true by simp)]
          simp
    · -- immediate
      rw [if_neg (show ¬¬true = true by decide), if_pos (show true = true from rfl)]
      cases after with
      | nil =>
        rw [if_neg (show ¬List.length ([] : Str) > 0 by simp)]
        rw [beforeCheck_iff]
        simp
      | cons c rest =>
        rw [if_pos (show List.length (c :: rest) > 0 by simp)]
        simp
  · intro htyped
    rw [htyped]
    simp

/-- The default [\w] word-character matcher restricted to ASCII, used to
instantiate witnesses. -/
def wordCharsW : Char → Bool := fun c => c.isAlphanum || c == '_'

/-- Witness for C1: abbreviation "btw" (not immediate, not triggerInside)
triggers on buffer "btw ". -/
theorem abbreviation_trigger_check_witness :
    shouldTrigger ⟨"btw".toList, true, false, false, false, wordCharsW⟩ "btw ".toList = true := by
  have h := (abbreviation_trigger_check ⟨"btw".toList, true, false, false, false, wordCharsW⟩
      "btw ".toList [] "btw".toList [' '] (by decide)).1 (by decide)
  rw [h]
  refine ⟨?_, ?_⟩
  · exact ⟨' ', rfl, by decide⟩
  · intro d hd
    exact absurd hd (by simp)

theorem isPrefixOf_drop_of_infix {l s : List Char} (h : l <:+: s) :
    ∃ k, l.isPrefixOf (s.drop k) = true := by
  obtain ⟨u, v, huv⟩ := h
  refine ⟨u.length, ?_⟩
  have : s.drop u.length = l ++ v := by
    rw [← huv, List.append_assoc, List.drop_left]
  rw [this, List.isPrefixOf_iff_prefix]
  exact List.prefix_append l v

theorem infix_of_isPrefixOf_drop {l s : List Char} {k : Nat}
    (h : l.isPrefixOf (s.drop k) = true) : l <:+: s := by
  rw [List.isPrefixOf_iff_prefix] at h
  obtain ⟨t, ht⟩ := h
  exact ⟨s.take k, t, by rw [List.append_assoc, ht, List.take_append_drop]⟩

theorem lastOcc_eq_some_of_infix {s sep : List Char} (hsep : sep ≠ [])
    (hocc : sep <:+: s) : ∃ i, lastOcc s sep = some i := by
  cases h : lastOcc s sep with
  | some i => exact ⟨i, rfl⟩
  | none =>
    exfalso
    obtain ⟨k, hk⟩ := isPrefixOf_drop_of_infix hocc
    by_cases hks : k ≤ s.length
    · rw [lastOccAux_none s sep s.length h k hks] at hk
      exact Bool.noConfusion hk
    · have hdrop : s.drop k = [] := List.drop_eq_nil_of_le (le_of_lt (not_le.mp hks))
      rw [hdrop, List.isPrefixOf_iff_prefix] at hk
      exact hsep (List.prefix_nil.mp hk)

/-- C2 (amended): with ignoreCase set, _partition_input searches for the
configured abbreviation verbatim (not case-folded) in the lower-cased
buffer; at the last such occurrence i it returns before and after taken
from the lower-cased buffer, while the matched component is the slice of
the buffer as originally typed, whose case folding equals the configured
abbreviation. -/
theorem partition_ignorecase (cfg : AbbrConfig) (buffer : Str)
    (hic : cfg.ignoreCase = true) (hsep : cfg.abbreviation ≠ [])
    (hocc : cfg.abbreviation <:+: lowerStr buffer) :
    ∃ i, i + cfg.abbreviation.length ≤ buffer.length ∧
      partitionInput cfg buffer =
        ((lowerStr buffer).take i,
         (buffer.drop i).take cfg.abbreviation.length,
         (lowerStr buffer).drop (i + cfg.abbreviation.length)) ∧
      lowerStr ((buffer.drop i).take cfg.abbreviation.length) = cfg.abbreviation ∧
      (∀ k, i < k → cfg.abbreviation.isPrefixOf ((lowerStr buffer).drop k) = false) := by
  have hmlen : (lowerStr buffer).length = buffer.length := List.length_map _ _
  obtain ⟨i, hi⟩ := lastOcc_eq_some_of_infix hsep hocc
  obtain ⟨hpre, hile, hlast⟩ := lastOccAux_some (lowerStr buffer) cfg.abbreviation _ i hi
  have hprefix : cfg.abbreviation <+: (lowerStr buffer).drop i :=
    List.isPrefixOf_iff_prefix.mp hpre
  have hlen : cfg.abbreviation.length ≤ (lowerStr buffer).length - i := by
    have := hprefix.length_le
    rwa [List.length_drop] at this
  have htake1 : ((lowerStr buffer).take i).length = i := by
    rw [List.length_take]
    omega
  have htake2 : (((lowerStr buffer).drop i).take cfg.abbreviation.length).length =
      cfg.abbreviation.length := by
    rw [List.length_take, List.length_drop]
    omega
  refine ⟨i, by omega, ?_, ?_, ?_⟩
  · unfold partitionInput
    rw [if_pos hic]
    dsimp only
    unfold rpartition
    rw [show lastOcc (lowerStr buffer) cfg.abbreviation = some i from hi]
    dsimp only
    rw [htake1, htake2]
    have : i + cfg.abbreviation.length - i = cfg.abbreviation.length := by omega
    rw [this]
  · have h2 : ((lowerStr buffer).drop i).take cfg.abbreviation.length = cfg.abbreviation :=
      (List.prefix_iff_eq_take.mp hprefix).symm
    unfold lowerStr at h2 ⊢
    rw [List.map_take, List.map_drop]
    exact h2
  · intro k hk
    by_cases hks : k ≤ (lowerStr buffer).length
    · exact hlast k hk hks
    · have hdrop : (lowerStr buffer).drop k = [] :=
        List.drop_eq_nil_of_le (le_of_lt (not_le.mp hks))
      rw [hdrop]
      cases habbr : cfg.abbreviation with
      | nil => exact absurd habbr hsep
      | cons a as => rfl

/-- Configuration used in the C2 counterexample and witness: ignoreCase with
an upper-case configured abbreviation. -/
def cfgC2 : AbbrConfig := ⟨['A'], true, true, false, false, wordCharsW⟩

/-- C2 counterexample: with ignoreCase set and configured abbreviation "A",
buffer "a" contains an occurrence when both sides are case-folded, yet
_partition_input returns an empty matched component: only the buffer is
case-folded before searching, the configured abbreviation is not, so an
upper-case configured abbreviation fails to match. -/
theorem partition_ignorecase_counterexample :
    lowerStr cfgC2.abbreviation <:+: lowerStr ['a'] ∧
    (partitionInput cfgC2 ['a']).2.1 = [] := by
  constructor
  · decide
  · rfl

/-- Witness configuration for the amended C2 theorem. -/
def cfgC2W : AbbrConfig := ⟨"btw".toList, true, true, false, false, wordCharsW⟩

/-- Witness for the amended C2 theorem at abbreviation "btw",
buffer "xBTW ". -/
theorem partition_ignorecase_witness :
    ∃ i, i + cfgC2W.abbreviation.length ≤ ("xBTW ".toList).length ∧
      partitionInput cfgC2W "xBTW ".toList =
        ((lowerStr "xBTW ".toList).take i,
         (("xBTW ".toList).drop i).take cfgC2W.abbreviation.length,
         (lowerStr "xBTW ".toList).drop (i + cfgC2W.abbreviation.length)) ∧
      lowerStr ((("xBTW ".toList).drop i).take cfgC2W.abbreviation.length) =
        cfgC2W.abbreviation ∧
      (∀ k, i < k → cfgC2W.abbreviation.isPrefixOf ((lowerStr "xBTW ".toList).drop k) = false) :=
  partition_ignorecase cfgC2W "xBTW ".toList rfl (by decide) (by decide)

/-- TriggerMode enumeration values (model.py). -/
def TriggerMode.NONE : Nat := 0

def TriggerMode.ABBREVIATION : Nat := 1

def TriggerMode.PREDICTIVE : Nat := 2

def TriggerMode.HOTKEY : Nat := 3

/-- The trigger-relevant state of a Folder.  The upward parent chain of a
node is modelled as a list of folder configurations, nearest parent first;
the chain ends above the root (parent is None). -/
structure FolderCfg where
  abbr : AbbrConfig
  modes : List Nat

/-- Folder.get_backspace_count, iterated over the parent chain: the first
folder whose abbreviation mode is enabled, backspace is enabled and whose
trigger succeeds yields len(abbreviation) + len(stringAfter); above the
root the count is 0. -/
def getBackspaceCount : List FolderCfg → Str → Nat
  | [], _ => 0
  | f :: rest, buf =>
    if TriggerMode.ABBREVIATION ∈ f.modes ∧ f.abbr.backspace = true ∧
        shouldTrigger f.abbr buf = true then
      f.abbr.abbreviation.length + (partitionInput f.abbr buf).2.2.length
    else getBackspaceCount rest buf

/-- Folder.calculate_input, iterated over the parent chain. -/
def folderCalculateInput : List FolderCfg → Str → Nat
  | [], _ => 0
  | f :: rest, buf =>
    if TriggerMode.ABBREVIATION ∈ f.modes ∧ f.abbr.backspace = true ∧
        shouldTrigger f.abbr buf = true then
      if f.abbr.immediate = true then f.abbr.abbreviation.length
      else f.abbr.abbreviation.length + 1
    else folderCalculateInput rest buf

/-- Folder of the C7 counterexample: abbreviation mode enabled, trigger
succeeds on "btw ", but backspace-on-trigger disabled. -/
def folderC7 : FolderCfg :=
  ⟨⟨"btw".toList, false, false, false, false, wordCharsW⟩, [TriggerMode.ABBREVIATION]⟩

/-- C7 counterexample: a root folder with abbreviation mode enabled, whose
(non-immediate) trigger succeeds on "btw ", returns 0 instead of
len(abbreviation) + 1 = 4, because its backspace flag is disabled:
Folder.calculate_input also requires self.backspace. -/
theorem folder_calculate_input_counterexample :
    TriggerMode.ABBREVIATION ∈ folderC7.modes ∧
    shouldTrigger folderC7.abbr "btw ".toList = true ∧
    folderC7.abbr.immediate = false ∧
    folderC7.abbr.abbreviation.length + 1 = 4 ∧
    folderCalculateInput [folderC7] "btw ".toList = 0 :=
  ⟨by decide, by decide, rfl, rfl, rfl⟩

/-- C7 (amended): Folder.calculate_input returns len(abbreviation) + 1
(len(abbreviation) when immediate) when the folder's abbreviation mode is
enabled, its backspace flag is enabled, and its trigger succeeds on the
buffer; otherwise it delegates to the parent, and above the root (no
folder left) the count is 0. -/
theorem folder_calculate_input_spec (f : FolderCfg) (rest : List FolderCfg) (buf : Str) :
    (TriggerMode.ABBREVIATION ∈ f.modes → f.abbr.backspace = true →
      shouldTrigger f.abbr buf = true →
      folderCalculateInput (f :: rest) buf =
        (if f.abbr.immediate = true then f.abbr.abbreviation.length
         else f.abbr.abbreviation.length + 1)) ∧
    (¬(TriggerMode.ABBREVIATION ∈ f.modes ∧ f.abbr.backspace = true ∧
        shouldTrigger f.abbr buf = true) →
      folderCalculateInput (f :: rest) buf = folderCalculateInput rest buf) ∧
    folderCalculateInput [] buf = 0 := by
  have e : folderCalculateInput (f :: rest) buf =
      if TriggerMode.ABBREVIATION ∈ f.modes ∧ f.abbr.backspace = true ∧
          shouldTrigger f.abbr buf = true then
        if f.abbr.immediate = true then f.abbr.abbreviation.length
        else f.abbr.abbreviation.length + 1
      else folderCalculateInput rest buf := rfl
  refine ⟨fun h1 h2 h3 => ?_, fun h => ?_, rfl⟩
  · rw [e, if_pos ⟨h1, h2, h3⟩]
  · rw [e, if_neg h]

/-- Folder of the C7 witness: same as the counterexample folder but with
backspace enabled. -/
def folderC7W : FolderCfg :=
  ⟨⟨"btw".toList, true, false, false, false, wordCharsW⟩, [TriggerMode.ABBREVIATION]⟩

/-- Witness for the amended C7 theorem: with backspace enabled the folder
consumes len("btw") + 1 = 4 keystrokes on buffer "btw ". -/
theorem folder_calculate_input_spec_witness :
    folderCalculateInput [folderC7W] "btw ".toList = 4 := by
  have h := (folder_calculate_input_spec folderC7W [] "btw ".toList).1 (by decide) rfl (by decide)
  rw [h]
  rfl

/-- A character is cased (ASCII): an upper- or lower-case letter. -/
def isCased (c : Char) : Bool := c.isUpper || c.isLower

/-- Python str.isupper: at least one cased character and no lower-case
character (ASCII). -/
def pyIsUpper (s : Str) : Bool := s.all (fun c => !c.isLower) && s.any (fun c => c.isUpper)

/-- Python str.islower: at least one cased character and no upper-case
character (ASCII). -/
def pyIsLower (s : Str) : Bool := s.all (fun c => !c.isUpper) && s.any (fun c => c.isLower)

/-- Python str.istitle scan: an upper-case letter may only follow an
uncased character, a lower-case letter may only follow a cased one, and
at least one cased character must occur.  The two Bool arguments track
whether the previous character was cased and whether a cased character
was seen. -/
def pyIsTitleAux : Str → Bool → Bool → Bool
  | [], _, found => found
  | c :: cs, prevCased, found =>
    if c.isUpper then (if prevCased then false else pyIsTitleAux cs true true)
    else if c.isLower then (if prevCased then pyIsTitleAux cs true true else false)
    else pyIsTitleAux cs false found

/-- Python str.istitle (ASCII). -/
def pyIsTitle (s : Str) : Bool := pyIsTitleAux s false false

/-- Python str.upper (ASCII). -/
def pyUpper (s : Str) : Str := s.map Char.toUpper

/-- Python str.lower (ASCII). -/
def pyLower (s : Str) : Str := s.map Char.toLower

/-- Python str.capitalize: first character upper-cased, the rest
lower-cased (ASCII). -/
def pyCapitalize : Str → Str
  | [] => []
  | c :: cs => Char.toUpper c :: cs.map Char.toLower

/-- The matchCase block of Phrase.build_phrase: classify the typed
abbreviation in the order istitle / isupper / islower and transform the
string accordingly; otherwise leave it unchanged. -/
def matchCaseTransform (matchCase : Bool) (typedAbbr s : Str) : Str :=
  if matchCase then
    if pyIsTitle typedAbbr then pyCapitalize s
    else if pyIsUpper typedAbbr then pyUpper s
    else if pyIsLower typedAbbr then pyLower s
    else s
  else s

/-- The build-relevant state of a Phrase. -/
structure PhraseCfg where
  abbr : AbbrConfig
  phrase : Str
  modes : List Nat
  omitTrigger : Bool
  matchCase : Bool

/-- The ephemeral Expansion value object. -/
structure Expansion where
  string : Str
  lefts : Nat
  backspaces : Nat
deriving DecidableEq

/-- Phrase.build_phrase (the usage-count increments it also performs are
modelled separately by incPath; the parsePositionTokens call in the source
is commented out there and hence not applied). -/
def buildPhrase (cfg : PhraseCfg) (parentChain : List FolderCfg) (buf : Str) : Expansion :=
  if TriggerMode.ABBREVIATION ∈ cfg.modes ∧ shouldTrigger cfg.abbr buf = true then
    let p := partitionInput cfg.abbr buf
    let typedAbbr := p.2.1
    let stringAfter := p.2.2
    let backspaces :=
      if cfg.abbr.backspace then cfg.abbr.abbreviation.length + stringAfter.length
      else stringAfter.length
    let s1 := if cfg.omitTrigger then cfg.phrase else cfg.phrase ++ stringAfter
    ⟨matchCaseTransform cfg.matchCase typedAbbr s1, 0, backspaces⟩
  else
    ⟨cfg.phrase, 0, getBackspaceCount parentChain buf⟩

/-- The build-relevant state of a Script. -/
structure ScriptCfg where
  abbr : AbbrConfig
  modes : List Nat
  omitTrigger : Bool

/-- Script.process_buffer: returns (backspaces, string). -/
def processBuffer (cfg : ScriptCfg) (parentChain : List FolderCfg) (buf : Str) : Nat × Str :=
  if TriggerMode.ABBREVIATION ∈ cfg.modes ∧ shouldTrigger cfg.abbr buf = true then
    let p := partitionInput cfg.abbr buf
    let stringAfter := p.2.2
    ((if cfg.abbr.backspace then cfg.abbr.abbreviation.length + stringAfter.length
      else stringAfter.length),
     if cfg.omitTrigger then [] else stringAfter)
  else
    (getBackspaceCount parentChain buf, [])

/-- C3: when the abbreviation trigger succeeds with partition
(before, matched, after), the built expansion's backspace count is
len(abbreviation) + len(after) when backspace-on-trigger is enabled and
len(after) otherwise, and when omitTrigger is false, after is appended to
the end of the output string before the case-mirroring step (hence
literally at the end when matchCase is off); the same holds of
Script.process_buffer. -/
theorem expansion_backspaces_append :
    (∀ (cfg : PhraseCfg) (chain : List FolderCfg) (buf before typed after : Str),
      TriggerMode.ABBREVIATION ∈ cfg.modes →
      shouldTrigger cfg.abbr buf = true →
      partitionInput cfg.abbr buf = (before, typed, after) →
      (buildPhrase cfg chain buf).backspaces =
        (if cfg.abbr.backspace = true then cfg.abbr.abbreviation.length + after.length
         else after.length) ∧
      (cfg.omitTrigger = false →
        (buildPhrase cfg chain buf).string =
          matchCaseTransform cfg.matchCase typed (cfg.phrase ++ after)) ∧
      (cfg.omitTrigger = false → cfg.matchCase = false →
        (buildPhrase cfg chain buf).string = cfg.phrase ++ after)) ∧
    (∀ (cfg : ScriptCfg) (chain : List FolderCfg) (buf before typed after : Str),
      TriggerMode.ABBREVIATION ∈ cfg.modes →
      shouldTrigger cfg.abbr buf = true →
      partitionInput cfg.abbr buf = (before, typed, after) →
      (processBuffer cfg chain buf).1 =
        (if cfg.abbr.backspace = true then cfg.abbr.abbreviation.length + after.length
         else after.length) ∧
      (cfg.omitTrigger = false → (processBuffer cfg chain buf).2 = after)) := by
  constructor
  · intro cfg chain buf before typed after hm ht hpart
    unfold buildPhrase
    rw [if_pos ⟨hm, ht⟩, hpart]
    dsimp only
    refine ⟨rfl, fun homit => ?_, fun homit hmc => ?_⟩
    · rw [homit, if_neg (show ¬(false = true) by decide)]
    · rw [homit, hmc, if_neg (show ¬(false = true) by decide)]
      rfl
  · intro cfg chain buf before typed after hm ht hpart
    unfold processBuffer
    rw [if_pos ⟨hm, ht⟩, hpart]
    dsimp only
    refine ⟨rfl, fun homit => ?_⟩
    rw [homit, if_neg (show ¬(false = true) by decide)]

/-- Phrase used in the C3 witness. -/
def phraseC3W : PhraseCfg :=
  ⟨⟨"btw".toList, true, false, false, false, wordCharsW⟩,
   "by the way".toList, [TriggerMode.ABBREVIATION], false, false⟩

/-- Script used in the C3 witness. -/
def scriptC3W : ScriptCfg :=
  ⟨⟨"btw".toList, true, false, false, false, wordCharsW⟩,
   [TriggerMode.ABBREVIATION], false⟩

/-- Witness for C3: abbreviation "btw" on buffer "btw " consumes
3 + 1 = 4 backspaces and re-appends the trailing space. -/
theorem expansion_backspaces_append_witness :
    (buildPhrase phraseC3W [] "btw ".toList).backspaces = 4 ∧
    (buildPhrase phraseC3W [] "btw ".toList).string = "by the way ".toList ∧
    (processBuffer scriptC3W [] "btw ".toList).1 = 4 ∧
    (processBuffer scriptC3W [] "btw ".toList).2 = " ".toList := by
  have hp := expansion_backspaces_append.1 phraseC3W [] "btw ".toList
      [] "btw".toList [' '] (by decide) (by decide) (by decide)
  have hs := expansion_backspaces_append.2 scriptC3W [] "btw ".toList
      [] "btw".toList [' '] (by decide) (by decide) (by decide)
  refine ⟨?_, ?_, ?_, ?_⟩
  · rw [hp.1]; rfl
  · rw [hp.2.2 rfl rfl]; rfl
  · rw [hs.1]; rfl
  · rw [hs.2 rfl]; rfl

/-- C8: with matchCase enabled and a successful trigger whose typed
abbreviation is `typed`, the output string is the capitalization of the
base string (replacement text plus re-appended after, unless omitTrigger)
when `typed` is title-case, its upper-casing when all-upper, its
lower-casing when all-lower, and the base string unchanged when mixed-case
(the classifications are tested in the source's istitle / isupper /
islower order). -/
theorem phrase_match_case (cfg : PhraseCfg) (chain : List FolderCfg)
    (buf before typed after : Str)
    (hm : TriggerMode.ABBREVIATION ∈ cfg.modes)
    (hmc : cfg.matchCase = true)
    (ht : shouldTrigger cfg.abbr buf = true)
    (hpart : partitionInput cfg.abbr buf = (before, typed, after)) :
    (pyIsTitle typed = true →
      (buildPhrase cfg chain buf).string =
        pyCapitalize (if cfg.omitTrigger = true then cfg.phrase else cfg.phrase ++ after)) ∧
    (pyIsTitle typed = false → pyIsUpper typed = true →
      (buildPhrase cfg chain buf).string =
        pyUpper (if cfg.omitTrigger = true then cfg.phrase else cfg.phrase ++ after)) ∧
    (pyIsTitle typed = false → pyIsUpper typed = false → pyIsLower typed = true →
      (buildPhrase cfg chain buf).string =
        pyLower (if cfg.omitTrigger = true then cfg.phrase else cfg.phrase ++ after)) ∧
    (pyIsTitle typed = false → pyIsUpper typed = false → pyIsLower typed = false →
      (buildPhrase cfg chain buf).string =
        (if cfg.omitTrigger = true then cfg.phrase else cfg.phrase ++ after)) := by
  unfold buildPhrase
  rw [if_pos ⟨hm, ht⟩, hpart]
  dsimp only
  unfold matchCaseTransform
  rw [if_pos hmc]
  refine ⟨fun h1 => ?_, fun h1 h2 => ?_, fun h1 h2 h3 => ?_, fun h1 h2 h3 => ?_⟩
  · rw [if_pos h1]
  · rw [if_neg (by simp [h1]), if_pos h2]
  · rw [if_neg (by simp [h1]), if_neg (by simp [h2]), if_pos h3]
  · rw [if_neg (by simp [h1]), if_neg (by simp [h2]), if_neg (by simp [h3])]

/-- Phrase used in the C8 witness: abbreviation "btw" with ignoreCase (so
an upper-case typed occurrence still matches), matchCase enabled,
replacement "by the way". -/
def phraseC8W : PhraseCfg :=
  ⟨⟨"btw".toList, true, true, false, false, wordCharsW⟩,
   "by the way".toList, [TriggerMode.ABBREVIATION], false, true⟩

/-- Witness for C8: typing "BTW " yields "BY THE WAY " (the spec's
all-upper example, with the trailing boundary space re-appended). -/
theorem phrase_match_case_witness :
    (buildPhrase phraseC8W [] "BTW ".toList).string = "BY THE WAY ".toList := by
  have h := (phrase_match_case phraseC8W [] "BTW ".toList [] "BTW".toList [' ']
      (by decide) rfl (by decide) (by decide)).2.1 (by decide) (by decide)
  rw [h]
  rfl

mutual
/-- The trigger tree for usage accounting: Folder nodes with children,
Phrase/Script leaves.  Children are a mutually defined forest so that all
functions over the tree are structurally recursive. -/
inductive UsageTree where
  | folder (usageCount : Nat) (children : UsageForest)
  | item (usageCount : Nat)
deriving DecidableEq

/-- The ordered children of a folder. -/
inductive UsageForest where
  | nil
  | cons (t : UsageTree) (ts : UsageForest)
deriving DecidableEq
end

/-- The child at a given index of a forest. -/
def UsageForest.child? : UsageForest → Nat → Option UsageTree
  | .nil, _ => none
  | .cons t _, 0 => some t
  | .cons _ ts, j + 1 => ts.child? j

mutual
/-- Usage count of the node addressed by a path of child indices. -/
def countAt : UsageTree → List Nat → Option Nat
  | .folder c _, [] => some c
  | .item c, [] => some c
  | .folder _ cs, i :: p => countAtForest cs i p
  | .item _, _ :: _ => none

def countAtForest : UsageForest → Nat → List Nat → Option Nat
  | .nil, _, _ => none
  | .cons t _, 0, p => countAt t p
  | .cons _ ts, j + 1, p => countAtForest ts j p
end

mutual
/-- increment_usage_count as performed by a successful build on the node
addressed by the path: the node's own count and the count of every
ancestor folder up to the root are incremented. -/
def incPath : UsageTree → List Nat → UsageTree
  | .folder c cs, [] => .folder (c + 1) cs
  | .item c, [] => .item (c + 1)
  | .folder c cs, i :: p => .folder (c + 1) (incForest cs i p)
  | .item c, _ :: _ => .item c

def incForest : UsageForest → Nat → List Nat → UsageForest
  | .nil, _, _ => .nil
  | .cons t ts, 0, p => .cons (incPath t p) ts
  | .cons t ts, j + 1, p => .cons t (incForest ts j p)
end

mutual
/-- Whether the path addresses a leaf item (Phrase/Script). -/
def isItemAt : UsageTree → List Nat → Bool
  | .item _, [] => true
  | .folder _ _, [] => false
  | .folder _ cs, i :: p => isItemAtForest cs i p
  | .item _, _ :: _ => false

def isItemAtForest : UsageForest → Nat → List Nat → Bool
  | .nil, _, _ => false
  | .cons t _, 0, p => isItemAt t p
  | .cons _ ts, j + 1, p => isItemAtForest ts j p
end

mutual
/-- Sum of the usage counts of all leaf items beneath a node. -/
def leafSum : UsageTree → Nat
  | .item c => c
  | .folder _ cs => leafSumForest cs

def leafSumForest : UsageForest → Nat
  | .nil => 0
  | .cons t ts => leafSum t + leafSumForest ts
end

/-- The usage count stored at a node itself. -/
def rootCount : UsageTree → Nat
  | .item c => c
  | .folder c _ => c

theorem countAtForest_eq (cs : UsageForest) (i : Nat) (p : List Nat) :
    countAtForest cs i p = (cs.child? i).bind (fun t => countAt t p) :=
  match cs, i with
  | .nil, _ => rfl
  | .cons _ _, 0 => rfl
  | .cons _ ts, j + 1 => countAtForest_eq ts j p

theorem isItemAtForest_eq (cs : UsageForest) (i : Nat) (p : List Nat) :
    isItemAtForest cs i p = ((cs.child? i).map (fun t => isItemAt t p)).getD false :=
  match cs, i with
  | .nil, _ => rfl
  | .cons _ _, 0 => rfl
  | .cons _ ts, j + 1 => isItemAtForest_eq ts j p

theorem incForest_child? (cs : UsageForest) (i : Nat) (p : List Nat) (j : Nat) :
    (incForest cs i p).child? j =
      if j = i then (cs.child? j).map (fun t => incPath t p) else cs.child? j :=
  match cs, i, j with
  | .nil, i, j => by simp [incForest, UsageForest.child?]
  | .cons t ts, 0, 0 => rfl
  | .cons t ts, 0, j' + 1 => by simp [incForest, UsageForest.child?]
  | .cons t ts, i' + 1, 0 => by simp [incForest, UsageForest.child?]
  | .cons t ts, i' + 1, j' + 1 => by
      have h := incForest_child? ts i' p j'
      simp only [incForest, UsageForest.child?]
      rw [h]
      by_cases hji : j' = i'
      · rw [if_pos hji, if_pos (by omega)]
      · rw [if_neg hji, if_neg (by omega)]

theorem countAt_incPath_prefix (p : List Nat) (t : UsageTree) (q : List Nat)
    (hvalid : (countAt t p).isSome = true) (hq : q <+: p) :
    countAt (incPath t p) q = (countAt t q).map (· + 1) :=
  match p, t, q with
  | [], t, q => by
      have hq0 : q = [] := List.prefix_nil.mp hq
      subst hq0
      cases t <;> rfl
  | _ :: _, .item _, _ => by
      exact absurd hvalid (by simp [countAt])
  | _ :: _, .folder _ _, [] => rfl
  | i :: p', .folder c cs, j :: q' => by
      obtain ⟨hji, hq'⟩ := List.cons_prefix_cons.mp hq
      subst hji
      have hv : ((cs.child? j).bind (fun u => countAt u p')).isSome = true := by
        rw [← countAtForest_eq]
        exact hvalid
      cases hci : cs.child? j with
      | none =>
        rw [hci] at hv
        exact Bool.noConfusion hv
      | some u =>
        rw [hci] at hv
        have hvu : (countAt u p').isSome = true := hv
        calc countAt (incPath (.folder c cs) (j :: p')) (j :: q')
            = ((incForest cs j p').child? j).bind (fun w => countAt w q') :=
              countAtForest_eq _ _ _
          _ = ((cs.child? j).map (fun w => incPath w p')).bind (fun w => countAt w q') := by
              rw [incForest_child?, if_pos rfl]
          _ = countAt (incPath u p') q' := by rw [hci]; rfl
          _ = (countAt u q').map (· + 1) := countAt_incPath_prefix p' u q' hvu hq'
          _ = (countAt (.folder c cs) (j :: q')).map (· + 1) := by
              rw [show countAt (.folder c cs) (j :: q') = countAtForest cs j q' from rfl,
                countAtForest_eq, hci]
              rfl

theorem countAt_incPath_other (p : List Nat) (t : UsageTree) (q : List Nat)
    (hq : ¬q <+: p) :
    countAt (incPath t p) q = countAt t q :=
  match p, t, q with
  | [], _, [] => absurd List.nil_prefix hq
  | [], .folder _ _, _ :: _ => rfl
  | [], .item _, _ :: _ => rfl
  | _ :: _, .item _, _ => rfl
  | _ :: _, .folder _ _, [] => absurd List.nil_prefix hq
  | i :: p', .folder c cs, j :: q' => by
      by_cases hji : j = i
      · subst hji
        have hq' : ¬q' <+: p' := fun hh => hq (List.cons_prefix_cons.mpr ⟨rfl, hh⟩)
        calc countAt (incPath (.folder c cs) (j :: p')) (j :: q')
            = ((incForest cs j p').child? j).bind (fun w => countAt w q') :=
              countAtForest_eq _ _ _
          _ = ((cs.child? j).map (fun w => incPath w p')).bind (fun w => countAt w q') := by
              rw [incForest_child?, if_pos rfl]
          _ = countAt (.folder c cs) (j :: q') := by
              rw [show countAt (.folder c cs) (j :: q') = countAtForest cs j q' from rfl,
                countAtForest_eq]
              cases hci : cs.child? j with
              | none => rfl
              | some u => exact countAt_incPath_other p' u q' hq' 
      · calc countAt (incPath (.folder c cs) (i :: p')) (j :: q')
            = ((incForest cs i p').child? j).bind (fun w => countAt w q') :=
              countAtForest_eq _ _ _
          _ = (cs.child? j).bind (fun w => countAt w q') := by
              rw [incForest_child?, if_neg hji]
          _ = countAt (.folder c cs) (j :: q') := (countAtForest_eq _ _ _).symm

mutual
theorem leafSum_incPath (p : List Nat) (t : UsageTree) (hitem : isItemAt t p = true) :
    leafSum (incPath t p) = leafSum t + 1 :=
  match p, t with
  | [], .item _ => rfl
  | [], .folder _ _ => by exact absurd hitem (by simp [isItemAt])
  | _ :: _, .item _ => by exact absurd hitem (by simp [isItemAt])
  | i :: p', .folder _ cs => leafSumForest_incForest cs i p' hitem
  termination_by (p.length, sizeOf t)

theorem leafSumForest_incForest (cs : UsageForest) (i : Nat) (p : List Nat)
    (hitem : isItemAtForest cs i p = true) :
    leafSumForest (incForest cs i p) = leafSumForest cs + 1 :=
  match cs, i with
  | .nil, _ => by exact absurd hitem (by simp [isItemAtForest])
  | .cons t ts, 0 => by
      have h := leafSum_incPath p t hitem
      show leafSum (incPath t p) + leafSumForest ts = leafSum t + leafSumForest ts + 1
      rw [h]
      omega
  | .cons t ts, j + 1 => by
      have h := leafSumForest_incForest ts j p hitem
      show leafSum t + leafSumForest (incForest ts j p) = leafSum t + leafSumForest ts + 1
      rw [h]
      omega
  termination_by (p.length, sizeOf cs)
end

theorem rootCount_incPath (p : List Nat) (t : UsageTree) (hitem : isItemAt t p = true) :
    rootCount (incPath t p) = rootCount t + 1 :=
  match p, t with
  | [], .item _ => rfl
  | [], .folder _ _ => by exact absurd hitem (by simp [isItemAt])
  | _ :: _, .item _ => by exact absurd hitem (by simp [isItemAt])
  | _ :: _, .folder _ _ => rfl

/-- C5: incrementing usage along a valid path (the leaf and every ancestor
folder up to the root, as increment_usage_count does after a successful
build) increments the count of every node on the path by exactly one,
leaves every other node unchanged, and preserves the invariant that the
root's count equals the sum of all leaf counts beneath it. -/
theorem usage_count_propagation (t : UsageTree) (p : List Nat)
    (hvalid : (countAt t p).isSome = true) :
    (∀ q, q <+: p → countAt (incPath t p) q = (countAt t q).map (· + 1)) ∧
    (∀ q, ¬q <+: p → countAt (incPath t p) q = countAt t q) ∧
    (isItemAt t p = true → rootCount t = leafSum t →
      rootCount (incPath t p) = leafSum (incPath t p)) :=
  ⟨fun q hq => countAt_incPath_prefix p t q hvalid hq,
   fun q hq => countAt_incPath_other p t q hq,
   fun hitem hsum => by
     rw [rootCount_incPath p t hitem, leafSum_incPath p t hitem, hsum]⟩

/-- Tree used in the C5 witness: root (count 5) with a subfolder (count 2)
holding an item (count 2), and a sibling item (count 3). -/
def treeC5 : UsageTree :=
  .folder 5 (.cons (.folder 2 (.cons (.item 2) .nil)) (.cons (.item 3) .nil))

/-- Witness for C5: incrementing the nested item at path [0, 0] bumps it,
its parent folder and the root by one, leaves the sibling item unchanged,
and keeps the root equal to the sum of the leaves. -/
theorem usage_count_propagation_witness :
    countAt (incPath treeC5 [0, 0]) [] = some 6 ∧
    countAt (incPath treeC5 [0, 0]) [0] = some 3 ∧
    countAt (incPath treeC5 [0, 0]) [0, 0] = some 3 ∧
    countAt (incPath treeC5 [0, 0]) [1] = some 3 ∧
    rootCount (incPath treeC5 [0, 0]) = leafSum (incPath treeC5 [0, 0]) := by
  have h := usage_count_propagation treeC5 [0, 0] (by decide)
  refine ⟨?_, ?_, ?_, ?_, h.2.2 (by decide) (by decide)⟩
  · rw [h.1 [] (by decide)]; rfl
  · rw [h.1 [0] (by decide)]; rfl
  · rw [h.1 [0, 0] (by decide)]; rfl
  · rw [h.2.1 [1] (by decide)]; rfl

/-- Hotkey and window-filter configuration (AbstractHotkey mixes in
AbstractWindowFilter).  The compiled window-title regex is modelled as an
opaque matcher predicate; None means no filter. -/
structure HotkeyCfg where
  modifiers : List Str
  hotKey : Option Str
  windowTitleRegex : Option (Str → Bool)

/-- AbstractWindowFilter._should_trigger_window_title: regex match against
the window title; absence of a pattern always passes. -/
def shouldTriggerWindowTitle (cfg : HotkeyCfg) (windowTitle : Str) : Bool :=
  match cfg.windowTitleRegex with
  | some r => r windowTitle
  | none => true

/-- AbstractHotkey.check_hotkey. -/
def checkHotkey (cfg : HotkeyCfg) (modifiers : List Str) (key : Str)
    (windowTitle : Str) : Bool :=
  match cfg.hotKey with
  | some hk =>
    if shouldTriggerWindowTitle cfg windowTitle then
      decide (cfg.modifiers = modifiers) && decide (hk = key)
    else false
  | none => false

/-- C4: for pre-sorted modifier lists (set_hotkey sorts the configured
list, the dispatcher sorts the active one), check_hotkey succeeds iff the
window filter passes, the active modifiers equal the configured modifier
set (order-independent, exact membership) and the key equals the
configured key.  In particular it fails when no key is configured. -/
theorem check_hotkey_iff (cfg : HotkeyCfg) (mods : List Str) (key : Str)
    (title : Str)
    (h1 : cfg.modifiers.Sorted (· ≤ ·)) (h2 : mods.Sorted (· ≤ ·)) :
    checkHotkey cfg mods key title = true ↔
      (shouldTriggerWindowTitle cfg title = true ∧ mods.Perm cfg.modifiers ∧
        cfg.hotKey = some key) := by
  unfold checkHotkey
  cases hk : cfg.hotKey with
  | none =>
    constructor
    · intro h
      exact Bool.noConfusion h
    · rintro ⟨-, -, habs⟩
      exact Option.noConfusion habs
  | some hkv =>
    dsimp only
    by_cases hw : shouldTriggerWindowTitle cfg title = true
    · rw [if_pos hw]
      constructor
      · intro h
        rw [Bool.and_eq_true, decide_eq_true_iff, decide_eq_true_iff] at h
        refine ⟨hw, by rw [h.1], by rw [h.2]⟩
      · rintro ⟨-, hperm, hkey⟩
        have heq : mods = cfg.modifiers := List.eq_of_perm_of_sorted hperm h2 h1
        have hk2 : hkv = key := Option.some.inj hkey
        rw [Bool.and_eq_true, decide_eq_true_iff, decide_eq_true_iff]
        exact ⟨heq.symm, hk2⟩
    · rw [if_neg hw]
      constructor
      · intro h
        exact Bool.noConfusion h
      · rintro ⟨hw', -, -⟩
        exact absurd hw' hw

/-- Witness for C4: hotkey ctrl+alt+k with no window filter matches the
active modifier set {alt, ctrl}. -/
theorem check_hotkey_iff_witness :
    checkHotkey ⟨["<alt>".toList, "<ctrl>".toList], some ['k'], none⟩
      ["<alt>".toList, "<ctrl>".toList] ['k'] [] = true := by
  rw [check_hotkey_iff ⟨["<alt>".toList, "<ctrl>".toList], some ['k'], none⟩
    ["<alt>".toList, "<ctrl>".toList] ['k'] [] (by decide) (by decide)]
  exact ⟨rfl, List.Perm.refl _, rfl⟩

/-- JSON-like persisted values, as produced by the serializer. -/
inductive JValue where
  | jstr (s : Str)
  | jbool (b : Bool)
  | jnat (n : Nat)
  | jnull
  | jlist (l : List JValue)
  | jobj (l : List (String × JValue))

/-- Python dict lookup on a serialized object. -/
def lookupField : List (String × JValue) → String → Option JValue
  | [], _ => none
  | (k, v) :: rest, key => if k = key then some v else lookupField rest key

/-- get_value_or_default (model.py): the stored value when the key is
present, the default otherwise. -/
def getValueOrDefault (jsonData : List (String × JValue)) (key : String)
    (default : JValue) : JValue :=
  match lookupField jsonData key with
  | some v => v
  | none => default

/-- Python dict access data[key]: KeyError (carrying the key) when the key
is missing. -/
def getField (d : List (String × JValue)) (key : String) : Except String JValue :=
  match lookupField d key with
  | some v => .ok v
  | none => .error key

/-- Interpret a JValue as a string. -/
def asStr : JValue → Except String Str
  | .jstr s => .ok s
  | _ => .error "type"

/-- Interpret a JValue as a boolean. -/
def asBool : JValue → Except String Bool
  | .jbool b => .ok b
  | _ => .error "type"

/-- Interpret a JValue as a natural number. -/
def asNat : JValue → Except String Nat
  | .jnat n => .ok n
  | _ => .error "type"

/-- Interpret a JValue as a string-or-null. -/
def asOptStr : JValue → Except String (Option Str)
  | .jstr s => .ok (some s)
  | .jnull => .ok none
  | _ => .error "type"

/-- Interpret a JValue as a list of naturals (the modes list). -/
def asNatList : JValue → Except String (List Nat)
  | .jlist l => l.mapM asNat
  | _ => .error "type"

/-- Interpret a JValue as a list of strings (the modifiers list). -/
def asStrList : JValue → Except String (List Str)
  | .jlist l => l.mapM asStr
  | _ => .error "type"

/-- SendMode values are strings ("kb", "<ctrl>+v", ...) except SELECTION,
which is None; interpret accordingly. -/
def asSendMode : JValue → Except String (Option Str)
  | .jstr s => .ok (some s)
  | .jnull => .ok none
  | _ => .error "type"

/-- SendMode.KEYBOARD. -/
def SendMode.KEYBOARD : Str := "kb".toList

/-- The persisted fields of AbstractAbbreviation. -/
structure AbbrRec where
  abbreviation : Option Str
  backspace : Bool
  ignoreCase : Bool
  immediate : Bool
  triggerInside : Bool
  wordChars : Str

/-- AbstractAbbreviation.load_from_serialized: every field is required. -/
def loadAbbreviation : JValue → Except String AbbrRec
  | .jobj d => do
    let ab ← asOptStr (← getField d "abbreviation")
    let bs ← asBool (← getField d "backspace")
    let ic ← asBool (← getField d "ignoreCase")
    let im ← asBool (← getField d "immediate")
    let ti ← asBool (← getField d "triggerInside")
    let wc ← asStr (← getField d "wordChars")
    pure ⟨ab, bs, ic, im, ti, wc⟩
  | _ => .error "type"

/-- Insert into a sorted list (model of Python list.sort via insertion). -/
def insertSorted (x : Str) : List Str → List Str
  | [] => [x]
  | y :: ys => if decide (x ≤ y) then x :: y :: ys else y :: insertSorted x ys

/-- Sort a list of strings (set_hotkey sorts the modifiers on load). -/
def sortStrList : List Str → List Str
  | [] => []
  | x :: xs => insertSorted x (sortStrList xs)

/-- The persisted fields of AbstractHotkey. -/
structure HotkeyRec where
  modifiers : List Str
  hotKey : Option Str

/-- AbstractHotkey.load_from_serialized, which calls set_hotkey (sorting
the modifier list). -/
def loadHotkey : JValue → Except String HotkeyRec
  | .jobj d => do
    let mods ← asStrList (← getField d "modifiers")
    let hk ← asOptStr (← getField d "hotKey")
    pure ⟨sortStrList mods, hk⟩
  | _ => .error "type"

/-- The persisted fields of a Phrase (the parent back-reference is
structural and not part of the record). -/
structure PhraseRec where
  description : Str
  phrase : Str
  modes : List Nat
  usageCount : Nat
  prompt : Bool
  omitTrigger : Bool
  matchCase : Bool
  showInTrayMenu : Bool
  sendMode : Option Str
  abbreviation : AbbrRec
  hotkey : HotkeyRec
  filter : Option Str

/-- Phrase.load_from_serialized: required fields are plain dict accesses
(KeyError when missing), the optional sendMode field goes through
get_value_or_default with SendMode.KEYBOARD as the default. -/
def loadPhrase (d : List (String × JValue)) : Except String PhraseRec := do
  let description ← asStr (← getField d "description")
  let phrase ← asStr (← getField d "phrase")
  let modes ← asNatList (← getField d "modes")
  let usageCount ← asNat (← getField d "usageCount")
  let prompt ← asBool (← getField d "prompt")
  let omitTrigger ← asBool (← getField d "omitTrigger")
  let matchCase ← asBool (← getField d "matchCase")
  let showInTrayMenu ← asBool (← getField d "showInTrayMenu")
  let sendMode ← asSendMode (getValueOrDefault d "sendMode" (.jstr SendMode.KEYBOARD))
  let abbreviation ← loadAbbreviation (← getField d "abbreviation")
  let hotkey ← loadHotkey (← getField d "hotkey")
  let filter ← asOptStr (← getField d "filter")
  pure ⟨description, phrase, modes, usageCount, prompt, omitTrigger, matchCase,
    showInTrayMenu, sendMode, abbreviation, hotkey, filter⟩

/-- C9: a serialized phrase record missing the optional sendMode field
loads successfully with sendMode defaulting to the keyboard variant, while
a record missing a required field (description, or phrase) fails fast with
an error naming the missing field. -/
theorem phrase_load_defaults :
    (∀ (desc phr : Str) (modesVal : JValue) (ms : List Nat) (usage : Nat)
       (prompt omitT mc showTray : Bool)
       (abbrevVal hotkeyVal filterVal : JValue)
       (ar : AbbrRec) (hr : HotkeyRec) (fv : Option Str),
      asNatList modesVal = .ok ms →
      loadAbbreviation abbrevVal = .ok ar →
      loadHotkey hotkeyVal = .ok hr →
      asOptStr filterVal = .ok fv →
      loadPhrase
        [("description", .jstr desc), ("phrase", .jstr phr),
         ("modes", modesVal), ("usageCount", .jnat usage),
         ("prompt", .jbool prompt), ("omitTrigger", .jbool omitT),
         ("matchCase", .jbool mc), ("showInTrayMenu", .jbool showTray),
         ("abbreviation", abbrevVal), ("hotkey", hotkeyVal), ("filter", filterVal)] =
        .ok ⟨desc, phr, ms, usage, prompt, omitT, mc, showTray,
          some SendMode.KEYBOARD, ar, hr, fv⟩) ∧
    (∀ d, lookupField d "description" = none → loadPhrase d = .error "description") ∧
    (∀ d v s, lookupField d "description" = some v → asStr v = .ok s →
      lookupField d "phrase" = none → loadPhrase d = .error "phrase") := by
  refine ⟨?_, ?_, ?_⟩
  · intro desc phr modesVal ms usage prompt omitT mc showTray abbrevVal hotkeyVal filterVal
      ar hr fv hms har hhr hfv
    simp [loadPhrase, getField, lookupField, getValueOrDefault, asStr, asNat, asBool,
      asSendMode, hms, har, hhr, hfv, SendMode.KEYBOARD, Except.instMonad, Except.bind,
      Except.map, Except.pure]
  · intro d hd
    simp [loadPhrase, getField, hd, Except.instMonad, Except.bind, Except.map]
  · intro d v s hd hv hp
    simp [loadPhrase, getField, hd, hv, hp, Except.instMonad, Except.bind, Except.map]

/-- Witness for C9: a concrete record without a sendMode key loads with
sendMode "kb"; a record without a description key raises KeyError. -/
theorem phrase_load_defaults_witness :
    loadPhrase
      [("description", .jstr "d".toList), ("phrase", .jstr "hello".toList),
       ("modes", .jlist [.jnat 1]), ("usageCount", .jnat 0),
       ("prompt", .jbool false), ("omitTrigger", .jbool false),
       ("matchCase", .jbool false), ("showInTrayMenu", .jbool false),
       ("abbreviation", .jobj [("abbreviation", .jstr "btw".toList),
          ("backspace", .jbool true), ("ignoreCase", .jbool false),
          ("immediate", .jbool false), ("triggerInside", .jbool false),
          ("wordChars", .jstr "[\\w]".toList)]),
       ("hotkey", .jobj [("modifiers", .jlist []), ("hotKey", .jnull)]),
       ("filter", .jnull)] =
      .ok ⟨"d".toList, "hello".toList, [1], 0, false, false, false, false,
        some SendMode.KEYBOARD,
        ⟨some "btw".toList, true, false, false, false, "[\\w]".toList⟩,
        ⟨[], none⟩, none⟩ ∧
    loadPhrase [("phrase", .jstr "hello".toList)] = .error "description" :=
  ⟨phrase_load_defaults.1 "d".toList "hello".toList (.jlist [.jnat 1]) [1] 0
      false false false false _ _ .jnull
      ⟨some "btw".toList, true, false, false, false, "[\\w]".toList⟩
      ⟨[], none⟩ none rfl rfl rfl rfl,
   phrase_load_defaults.2.1 _ rfl⟩

/-- The key-string constants of the Key enumeration (iomediator.py). -/
def KEY_STRINGS : List Str :=
  ["<left>", "<right>", "<up>", "<down>", "<backspace>", "<tab>", "<enter>", " ",
   "<scroll_lock>", "<print_screen>", "<pause>", "<menu>",
   "<ctrl>", "<alt>", "<alt_gr>", "<shift>", "<super>", "<capslock>", "<numlock>",
   "<f1>", "<f2>", "<f3>", "<f4>", "<f5>", "<f6>", "<f7>", "<f8>", "<f9>", "<f10>",
   "<f11>", "<f12>",
   "<escape>", "<insert>", "<delete>", "<home>", "<end>", "<page_up>",
   "<page_down>"].map String.toList

/-- Key.is_key: the lower-cased string is one of the Key constants, or the
string starts with "<code". -/
def isKey (s : Str) : Bool :=
  decide (lowerStr s ∈ KEY_STRINGS) || ("<code".toList).isPrefixOf s

/-- The MODIFIERS list (iomediator.py). -/
def MODIFIERS : List Str :=
  ["<ctrl>", "<alt>", "<alt_gr>", "<shift>", "<super>", "<capslock>",
   "<numlock>"].map String.toList

/-- The NAVIGATION_KEYS list (iomediator.py). -/
def NAVIGATION_KEYS : List Str :=
  ["<left>", "<right>", "<up>", "<down>", "<backspace>", "<home>", "<end>",
   "<page_up>", "<page_down>"].map String.toList

/-- One attempted match of the KEY_SPLIT_RE pattern (a bracketed
key token, optionally followed by a plus) at the head of the string:
the matched token and the remainder. -/
def matchToken : Str → Option (Str × Str)
  | '<' :: rest =>
    let inner := rest.takeWhile (fun c => !(c == '<' || c == '>'))
    let rest2 := rest.drop inner.length
    if inner.length > 0 then
      match rest2 with
      | '>' :: '+' :: r => some ('<' :: (inner ++ ['>', '+']), r)
      | '>' :: r => some ('<' :: (inner ++ ['>']), r)
      | _ => none
    else none
  | _ => none

/-- re.split with the capturing KEY_SPLIT_RE pattern: alternating literal
text and token pieces, empty text pieces included.  Fuel-driven recursion;
the initial fuel (the string length) always suffices because every step
consumes at least one character, and the fuel-exhausted arm agrees with
the empty-string arm on the only reachable input (the empty string). -/
def tokenSplitAux : Nat → Str → Str → List Str
  | 0, acc, s => [acc.reverse ++ s]
  | n + 1, acc, s =>
    match s with
    | [] => [acc.reverse]
    | c :: rest =>
      match matchToken (c :: rest) with
      | some (tok, rem) => acc.reverse :: tok :: tokenSplitAux n [] rem
      | none => tokenSplitAux n (c :: acc) rest

/-- KEY_SPLIT_RE.split(s). -/
def tokenSplit (s : Str) : List Str := tokenSplitAux s.length [] s

/-- Events sent to the backend interface by send_string. -/
inductive KbdEvent where
  | release (m : Str)
  | press (m : Str)
  | sendStr (s : Str)
  | sendKey (s : Str)
  | sendModKey (s : Str) (mods : List Str)
deriving DecidableEq

/-- The modifier state map self.modifiers, in its initialization order. -/
abbrev ModMap : Type := List (Str × Bool)

/-- __clearModifiers: the currently-held non-toggle modifiers, in map
order; each is released and recorded in self.releasedModifiers. -/
def releasedModifiers (mods : ModMap) : List Str :=
  (mods.filter (fun p =>
    p.2 && !(p.1 == "<capslock>".toList || p.1 == "<numlock>".toList))).map Prod.fst

/-- One iteration of the send_string loop body: the backend events the
section emits and the updated chord-modifier accumulator.  An empty
section emits nothing. -/
def processSection (sec : Str) (chord : List Str) : List KbdEvent × List Str :=
  if sec.length > 0 then
    if isKey sec.dropLast && (sec.getLastD '?' == '+') && decide (sec.dropLast ∈ MODIFIERS) then
      ([], chord ++ [sec.dropLast])
    else if chord.length > 0 then
      if isKey sec then ([.sendModKey sec chord], chord)
      else
        ([.sendModKey (sec.take 1) chord] ++
          (if sec.length > 1 then [.sendStr (sec.drop 1)] else []), [])
    else
      if isKey sec then ([.sendKey sec], chord) else ([.sendStr sec], chord)
  else ([], chord)

/-- The send_string section loop: after every section (also empty ones)
the released modifiers are re-pressed, because the __reapplyModifiers call
sits inside the for loop in the source. -/
def sendSections (released : List Str) : List Str → List Str → List KbdEvent
  | [], _ => []
  | sec :: rest, chord =>
    let pr := processSection sec chord
    pr.1 ++ released.map .press ++ sendSections released rest pr.2

/-- IoMediator.send_string: on empty input do nothing; otherwise release
every held non-toggle modifier (recording them), then process the
KEY_SPLIT_RE sections of the string. -/
def sendString (mods : ModMap) (s : Str) : List KbdEvent :=
  if s.length = 0 then []
  else
    (releasedModifiers mods).map .release ++
      sendSections (releasedModifiers mods) (tokenSplit s) []

/-- The backend's pressed-key set, as updated by press/release events. -/
def applyEvent (pressed : List Str) : KbdEvent → List Str
  | .release m => pressed.erase m
  | .press m => if m ∈ pressed then pressed else pressed ++ [m]
  | _ => pressed

/-- Fold a trace of events over the pressed-key set. -/
def applyEvents (pressed : List Str) (evs : List KbdEvent) : List Str :=
  evs.foldl applyEvent pressed

/-- The modifier map at entry in the C6 evaluation: shift held, numlock on
(its initial state), everything else released. -/
def modsC6 : ModMap :=
  [("<ctrl>".toList, false), ("<alt>".toList, false), ("<alt_gr>".toList, false),
   ("<shift>".toList, true), ("<super>".toList, false), ("<capslock>".toList, false),
   ("<numlock>".toList, true)]

/-- C6, evaluation at the failing input: sending "a<tab>b" while shift is
held releases shift once but re-presses it after every one of the three
KEY_SPLIT_RE sections - three press events, the first two emitted before
the remaining content is sent - because __reapplyModifiers is called
inside the section loop; the claim says the released modifiers are
re-pressed exactly once, after the content.  Toggle modifiers are never
touched, and the final pressed set does equal the entry set. -/
theorem send_string_reapplies_per_section :
    (sendString modsC6 "a<tab>b".toList).count (.press "<shift>".toList) = 3 ∧
    (sendString modsC6 "a<tab>b".toList).count (.release "<shift>".toList) = 1 ∧
    sendString modsC6 "a<tab>b".toList =
      [.release "<shift>".toList, .sendStr "a".toList, .press "<shift>".toList,
       .sendKey "<tab>".toList, .press "<shift>".toList, .sendStr "b".toList,
       .press "<shift>".toList] ∧
    applyEvents ["<shift>".toList] (sendString modsC6 "a<tab>b".toList) =
      ["<shift>".toList] :=
  ⟨by decide, by decide, by decide, by decide⟩

/-- Python str.split(sep): non-overlapping leftmost splitting.  Fuel-driven
recursion; the string length suffices as fuel because every step consumes
at least one character, and the fuel-exhausted arm agrees with the
empty-string arm on the only reachable input (the empty string). -/
def splitOnFuel (sep : Str) : Nat → Str → Str → List Str
  | 0, acc, s => [acc.reverse ++ s]
  | n + 1, acc, s =>
    if sep ≠ [] ∧ sep.isPrefixOf s = true then
      acc.reverse :: splitOnFuel sep n [] (s.drop sep.length)
    else
      match s with
      | [] => [acc.reverse]
      | c :: rest => splitOnFuel sep n (c :: acc) rest

/-- Python s.split(sep). -/
def splitOnSep (s sep : Str) : List Str := splitOnFuel sep s.length [] s

/-- Rejoin split parts with the separator (the inverse of split). -/
def joinSep (sep : Str) : List Str → Str
  | [] => []
  | [x] => x
  | x :: xs => x ++ sep ++ joinSep sep xs

/-- Python substring membership test (pat in s). -/
def containsSub (pat : Str) : Str → Bool
  | [] => pat.isPrefixOf []
  | c :: rest => pat.isPrefixOf (c :: rest) || containsSub pat rest

theorem splitOnFuel_ne_nil (sep : Str) (n : Nat) (acc s : Str) :
    splitOnFuel sep n acc s ≠ [] := by
  cases n with
  | zero => simp [splitOnFuel]
  | succ n =>
    unfold splitOnFuel
    by_cases h : sep ≠ [] ∧ sep.isPrefixOf s = true
    · simp [h]
    · rw [if_neg h]
      cases s with
      | nil => simp
      | cons c rest => exact splitOnFuel_ne_nil sep n (c :: acc) rest

theorem joinSep_cons (sep : Str) (x : Str) (xs : List Str) (hxs : xs ≠ []) :
    joinSep sep (x :: xs) = x ++ sep ++ joinSep sep xs := by
  cases xs with
  | nil => exact absurd rfl hxs
  | cons y ys => rfl

theorem joinSep_splitOnFuel (sep : Str) (n : Nat) (acc s : Str) :
    joinSep sep (splitOnFuel sep n acc s) = acc.reverse ++ s := by
  induction n generalizing acc s with
  | zero => rfl
  | succ n ih =>
    unfold splitOnFuel
    by_cases h : sep ≠ [] ∧ sep.isPrefixOf s = true
    · rw [if_pos h]
      rw [joinSep_cons sep _ _ (splitOnFuel_ne_nil sep n [] (s.drop sep.length))]
      rw [ih [] (s.drop sep.length)]
      have hs : sep ++ s.drop sep.length = s := by
        have hp : sep <+: s := List.isPrefixOf_iff_prefix.mp h.2
        have := List.prefix_iff_eq_take.mp hp
        conv_rhs => rw [← List.take_append_drop sep.length s, ← this]
      rw [List.reverse_nil, List.nil_append, List.append_assoc, hs]
    · rw [if_neg h]
      cases s with
      | nil => simp [joinSep]
      | cons c rest =>
        rw [ih (c :: acc) rest]
        simp

theorem splitOnFuel_length_acc (sep : Str) (n : Nat) (acc acc' s : Str) :
    (splitOnFuel sep n acc s).length = (splitOnFuel sep n acc' s).length := by
  induction n generalizing acc acc' s with
  | zero => rfl
  | succ n ih =>
    unfold splitOnFuel
    by_cases h : sep ≠ [] ∧ sep.isPrefixOf s = true
    · rw [if_pos h, if_pos h]
      simp
    · rw [if_neg h, if_neg h]
      cases s with
      | nil => rfl
      | cons c rest => exact ih (c :: acc) (c :: acc') rest

theorem containsSub_iff_parts (tok : Str) (htok : tok ≠ []) (s : Str) :
    containsSub tok s = true ↔ 2 ≤ (splitOnSep s tok).length := by
  induction s with
  | nil =>
    unfold containsSub splitOnSep splitOnFuel
    cases tok with
    | nil => exact absurd rfl htok
    | cons t ts => simp
  | cons c rest ih =>
    have hL : splitOnSep (c :: rest) tok =
        if tok ≠ [] ∧ tok.isPrefixOf (c :: rest) = true then
          [] :: splitOnFuel tok rest.length [] ((c :: rest).drop tok.length)
        else splitOnFuel tok rest.length [c] rest := by
      show splitOnFuel tok (c :: rest).length [] (c :: rest) = _
      rw [List.length_cons]
      rfl
    rw [hL, show containsSub tok (c :: rest) =
      (tok.isPrefixOf (c :: rest) || containsSub tok rest) from rfl]
    by_cases h : tok ≠ [] ∧ tok.isPrefixOf (c :: rest) = true
    · rw [if_pos h]
      have hne := splitOnFuel_ne_nil tok rest.length [] ((c :: rest).drop tok.length)
      cases hsp : splitOnFuel tok rest.length [] ((c :: rest).drop tok.length) with
      | nil => exact absurd hsp hne
      | cons a as => simp [h.2]
    · rw [if_neg h]
      have hnp : tok.isPrefixOf (c :: rest) = false := by
        rcases not_and_or.mp h with h1 | h2
        · exact absurd htok (by simpa using h1)
        · exact Bool.eq_false_iff.mpr h2
      rw [hnp]
      simp only [Bool.false_or]
      rw [splitOnFuel_length_acc tok rest.length [c] [] rest]
      exact ih

/-- The lefts computation of parsePositionTokens: one left per character
of each KEY_SPLIT_RE section of the text after the cursor token that is
not a key token (or is the literal space or newline section). -/
def leftsCount (secondpart : Str) : Nat :=
  ((tokenSplit secondpart).map (fun sec =>
    if !isKey sec || (sec == " ".toList || sec == "\n".toList) then sec.length
    else 0)).sum

/-- Phrase.parsePositionTokens.  The cursor marker constant
CURSOR_POSITION_TOKEN is defined in configuration code that is not part of
the sources; modelled from the spec as an arbitrary marker string
parameter.  The two-way unpacking of the split raises ValueError when the
split does not have exactly two parts; modelled as None. -/
def parsePositionTokens (token : Str) (e : Expansion) : Option Expansion :=
  if containsSub token e.string then
    match splitOnSep e.string token with
    | [firstpart, secondpart] =>
      let foundNav := NAVIGATION_KEYS.any (fun k => containsSub k e.string)
      let lefts := if foundNav then 0 else e.lefts + leftsCount secondpart
      some ⟨firstpart ++ secondpart, lefts, e.backspaces⟩
    | _ => none
  else some e

/-- C10: parsePositionTokens is total exactly when the cursor marker
occurs at most once (the split has at most two parts): with exactly one
occurrence the final string is firstPart ++ secondPart with the marker
removed, and with two or more occurrences (three or more split parts) the
two-way unpacking raises instead of returning an expansion. -/
theorem parse_position_tokens_total (token : Str) (e : Expansion) (htok : token ≠ []) :
    ((splitOnSep e.string token).length ≤ 2 →
      ∃ e2, parsePositionTokens token e = some e2) ∧
    (∀ f s2, splitOnSep e.string token = [f, s2] →
      ∃ e2, parsePositionTokens token e = some e2 ∧ e2.string = f ++ s2 ∧
        e.string = f ++ token ++ s2) ∧
    (3 ≤ (splitOnSep e.string token).length → parsePositionTokens token e = none) := by
  refine ⟨?_, ?_, ?_⟩
  · intro hle
    unfold parsePositionTokens
    by_cases hc : containsSub token e.string = true
    · rw [if_pos hc]
      have h2 := (containsSub_iff_parts token htok e.string).mp hc
      cases hsp : splitOnSep e.string token with
      | nil => exact absurd hsp (splitOnFuel_ne_nil token _ [] e.string)
      | cons a as =>
        cases as with
        | nil => rw [hsp] at h2; simp at h2
        | cons b bs =>
          cases bs with
          | nil => exact ⟨_, rfl⟩
          | cons d ds => rw [hsp] at hle; simp at hle
    · rw [if_neg hc]
      exact ⟨e, rfl⟩
  · intro f s2 hsp
    have hc : containsSub token e.string = true := by
      rw [containsSub_iff_parts token htok e.string, hsp]
      simp
    have hjoin : joinSep token (splitOnSep e.string token) = e.string :=
      joinSep_splitOnFuel token e.string.length [] e.string
    rw [hsp] at hjoin
    unfold parsePositionTokens
    rw [if_pos hc, hsp]
    exact ⟨_, rfl, rfl, by rw [← hjoin]; rfl⟩
  · intro hge
    have hc : containsSub token e.string = true := by
      rw [containsSub_iff_parts token htok e.string]
      omega
    unfold parsePositionTokens
    rw [if_pos hc]
    cases hsp : splitOnSep e.string token with
    | nil => rfl
    | cons a as =>
      cases as with
      | nil => rfl
      | cons b bs =>
        cases bs with
        | nil => rw [hsp] at hge; simp at hge
        | cons d ds => rfl

/-- Witness for C10: with the marker "<cursor>", the expansion string
"ab<cursor>cd" yields "abcd", while "a<cursor>b<cursor>c" (two markers)
raises. -/
theorem parse_position_tokens_total_witness :
    (∃ e2, parsePositionTokens "<cursor>".toList ⟨"ab<cursor>cd".toList, 0, 0⟩ = some e2 ∧
      e2.string = "ab".toList ++ "cd".toList ∧
      "ab<cursor>cd".toList = "ab".toList ++ "<cursor>".toList ++ "cd".toList) ∧
    parsePositionTokens "<cursor>".toList ⟨"a<cursor>b<cursor>c".toList, 0, 0⟩ = none :=
  ⟨(parse_position_tokens_total "<cursor>".toList ⟨"ab<cursor>cd".toList, 0, 0⟩
      (by decide)).2.1 "ab".toList "cd".toList (by decide),
   (parse_position_tokens_total "<cursor>".toList ⟨"a<cursor>b<cursor>c".toList, 0, 0⟩
      (by decide)).2.2 (by decide)⟩
